import Mathlib

/-!
Verification of the `CST_PlottingTools` plotting library.

The development shallowly embeds, over the rationals:
* `CenteredColorMap` from `CST_PlottingTools/utils.py` — the colormap
  re-centering engine: it resamples an input gradient at 513 regularly spaced
  source positions and re-keys the samples at 513 shifted target positions
  (256 positions on `[0, midpoint)` and 257 on `[midpoint, 1]`), the result
  being looked up by piecewise-linear interpolation per channel;
* the colormap-selection and bound-resolution logic at the top of `Heatmap`
  in `CST_PlottingTools/CRF_heatmap.py`;
* the relative-contour guard of `Heatmap`;
* the three guarded input checks of `TwoVarLineplot` in
  `CST_PlottingTools/CRF_lineplot.py`.
-/

set_option maxRecDepth 40000

namespace CST

/-- An RGBA color: the four channel values returned by a matplotlib colormap.
Field names follow the `cdict` keys built in `CenteredColorMap`. -/
@[ext]
structure RGBA where
  red : ℚ
  green : ℚ
  blue : ℚ
  alpha : ℚ
  deriving DecidableEq

/-- Embedding of `np.linspace(a, b, n)` (with `endpoint=True`, the numpy
default): `n` evenly spaced values from `a` to `b`, both included. -/
def linspace (a b : ℚ) (n : ℕ) : List ℚ :=
  (List.range n).map (fun i : ℕ => a + (i : ℚ) * (b - a) / ((n : ℚ) - 1))

/-- Embedding of `np.linspace(a, b, n, endpoint=False)`: `n` evenly spaced
values starting at `a` with step `(b - a) / n`, excluding `b`. -/
def linspaceNoEndpoint (a b : ℚ) (n : ℕ) : List ℚ :=
  (List.range n).map (fun i : ℕ => a + (i : ℚ) * (b - a) / (n : ℚ))

/-- The midpoint computation of `CenteredColorMap`:
`np.diff([vmin, vcenter])[0] / np.diff([vmin, vmax])[0]`,
that is `(vcenter - vmin) / (vmax - vmin)`. -/
def midpointOf (vmin vcenter vmax : ℚ) : ℚ :=
  (vcenter - vmin) / (vmax - vmin)

/-- The `reg_index` array of `CenteredColorMap`: `np.linspace(start, stop, 513)`,
the positions at which the input colormap is sampled. -/
def reg_index (start stop : ℚ) : List ℚ :=
  linspace start stop 513

/-- The `shift_index` array of `CenteredColorMap`:
`np.hstack([np.linspace(0.0, midpoint, 256, endpoint=False),
np.linspace(midpoint, 1.0, 257, endpoint=True)])`,
the positions at which the samples are re-keyed. -/
def shift_index (midpoint : ℚ) : List ℚ :=
  linspaceNoEndpoint 0 midpoint 256 ++ linspace midpoint 1 257

/-- Closed form for the `i`-th entry of `shift_index` (`i < 513`). -/
def shiftPos (midpoint : ℚ) (i : ℕ) : ℚ :=
  if i < 256 then (i : ℚ) * midpoint / 256
  else midpoint + ((i : ℚ) - 256) * (1 - midpoint) / 256

/-- One channel of the `cdict` built by `CenteredColorMap`: for each pair
`(ri, si)` of `zip(reg_index, shift_index)` the source appends the control
point `(si, c(ri), c(ri))`; since the second and third components (the left
and right limits used by matplotlib) are always equal, each control point is
recorded here as the pair `(si, c ri)`. -/
def channelPoints (c : ℚ → ℚ) (start stop midpoint : ℚ) : List (ℚ × ℚ) :=
  ((reg_index start stop).zip (shift_index midpoint)).map (fun p => (p.2, c p.1))

/-- Linear interpolation between control points `(x0, y0)` and `(x1, y1)`
evaluated at `q`. -/
def lerp (x0 y0 x1 y1 q : ℚ) : ℚ :=
  y0 + (q - x0) * (y1 - y0) / (x1 - x0)

/-- Left-to-right lookup of a piecewise-linear control-point table: return the
first control value whose position is at least `q`, interpolating inside the
first segment that contains `q`. -/
def interpGo : List (ℚ × ℚ) → ℚ → ℚ
  | [], _ => 0
  | [a], _ => a.2
  | a :: b :: rest, q =>
    if q ≤ a.1 then a.2
    else if q ≤ b.1 then lerp a.1 a.2 b.1 b.2 q
    else interpGo (b :: rest) q

/-- Evaluation of a matplotlib `LinearSegmentedColormap` channel built from a
control-point table (spec section 4.1, step 5): piecewise-linear interpolation
through the control points, exact at control points, clamped to the first
value below the first position and to the last value above the last position
(matplotlib pins the lookup table to the first and last control values). -/
def interp (pts : List (ℚ × ℚ)) (q : ℚ) : ℚ :=
  match pts.getLast? with
  | none => 0
  | some pl => if pl.1 ≤ q then pl.2 else interpGo pts q

/-- The colormap returned by `CenteredColorMap`, as a function of the already
computed midpoint: each channel is the piecewise-linear lookup of the channel
control points built from `zip(reg_index, shift_index)`. -/
def CenteredColorMapCore (cmap : ℚ → RGBA) (midpoint start stop : ℚ) : ℚ → RGBA :=
  fun q =>
    { red := interp (channelPoints (fun t => (cmap t).red) start stop midpoint) q
      green := interp (channelPoints (fun t => (cmap t).green) start stop midpoint) q
      blue := interp (channelPoints (fun t => (cmap t).blue) start stop midpoint) q
      alpha := interp (channelPoints (fun t => (cmap t).alpha) start stop midpoint) q }

/-- Embedding of `CenteredColorMap(cmap, vmin, vcenter, vmax, start=0, stop=1.0)`
from `CST_PlottingTools/utils.py` (the `name` argument only labels the
matplotlib object and is dropped). -/
def CenteredColorMap (cmap : ℚ → RGBA) (vmin vcenter vmax : ℚ)
    (start : ℚ := 0) (stop : ℚ := 1) : ℚ → RGBA :=
  CenteredColorMapCore cmap (midpointOf vmin vcenter vmax) start stop

/-- Division of numpy float scalars: `some q` is a finite value, `none` is the
non-finite value (`inf` or `nan`) produced by dividing by zero. Numpy does not
raise here — it emits a `RuntimeWarning` and execution continues, so `none` is
a value that propagates through later arithmetic, not an error path. -/
def npDiv (a b : ℚ) : Option ℚ :=
  if b = 0 then none else some (a / b)

/-- The midpoint exactly as the source computes it on numpy scalars
(`np.diff([vmin, vcenter])[0] / np.diff([vmin, vmax])[0]`): a scalar that is
non-finite precisely when `vmax = vmin`; the function continues regardless. -/
def midpointNp (vmin vcenter vmax : ℚ) : Option ℚ :=
  npDiv (vcenter - vmin) (vmax - vmin)

/-- The `shift_index` array as numpy evaluates it on a possibly non-finite
midpoint scalar. `np.linspace(a, b, n)` computes `a + i * step` and, with
`endpoint=True`, overwrites the final sample with `b`; a non-finite bound
therefore poisons every computed sample (`0 * inf` and `0 * nan` are `nan`),
while the explicitly assigned final endpoint stays `1.0`. On a finite midpoint
this list is exactly `shift_index` (see `shift_indexNp_some`). -/
def shift_indexNp (m : Option ℚ) : List (Option ℚ) :=
  (List.range 256).map (fun i : ℕ => m.map (fun mv => 0 + (i : ℚ) * (mv - 0) / 256)) ++
  ((List.range 256).map (fun i : ℕ => m.map (fun mv => mv + (i : ℚ) * (1 - mv) / 256)) ++
    [some 1])

/-- One channel of the `cdict` as actually built: target positions are numpy
scalars that may be non-finite, samples of the input gradient are taken at the
finite `reg_index` positions as usual. -/
def channelPointsNp (c : ℚ → ℚ) (start stop : ℚ) (m : Option ℚ) : List (Option ℚ × ℚ) :=
  ((reg_index start stop).zip (shift_indexNp m)).map (fun p => (p.2, c p.1))

/-- What `CenteredColorMap` actually does on every input, the degenerate
`vmin == vmax` included: it computes the (possibly non-finite) midpoint, builds
the four channel control tables, and hands them to the
`LinearSegmentedColormap` constructor, which performs no validation
(matplotlib validates a colormap only when it is first evaluated). The
function is total — it returns for every input and never raises. -/
def CenteredColorMapNp (cmap : ℚ → RGBA) (vmin vcenter vmax start stop : ℚ) :
    List (Option ℚ × ℚ) × List (Option ℚ × ℚ) × List (Option ℚ × ℚ) ×
      List (Option ℚ × ℚ) :=
  (channelPointsNp (fun t => (cmap t).red) start stop (midpointNp vmin vcenter vmax),
   channelPointsNp (fun t => (cmap t).green) start stop (midpointNp vmin vcenter vmax),
   channelPointsNp (fun t => (cmap t).blue) start stop (midpointNp vmin vcenter vmax),
   channelPointsNp (fun t => (cmap t).alpha) start stop (midpointNp vmin vcenter vmax))

/-! ### The caller-side guard of `Heatmap` (`CRF_heatmap.py`, lines 154-170) -/

/-- Observed maximum of the (flattened, nonempty) data array, `data.max()`. -/
def dataMax : List ℚ → ℚ
  | [] => 0
  | x :: xs => xs.foldl max x

/-- Observed minimum of the (flattened, nonempty) data array, `data.min()`. -/
def dataMin : List ℚ → ℚ
  | [] => 0
  | x :: xs => xs.foldl min x

/-- Resolution of the `vmax` argument of `Heatmap`: the guard is
`if not vmax: vmax = math.ceil(data.max())`, so a missing value and a supplied
value equal to `0` (both falsy in Python) are replaced by the rounded-up data
maximum. -/
def resolveVmax (vmax : Option ℚ) (data : List ℚ) : ℚ :=
  match vmax with
  | none => (Int.ceil (dataMax data) : ℚ)
  | some v => if v = 0 then (Int.ceil (dataMax data) : ℚ) else v

/-- Resolution of the `vmin` argument of `Heatmap`:
`if not vmin: vmin = math.floor(data.min())`. -/
def resolveVmin (vmin : Option ℚ) (data : List ℚ) : ℚ :=
  match vmin with
  | none => (Int.floor (dataMin data) : ℚ)
  | some v => if v = 0 then (Int.floor (dataMin data) : ℚ) else v

/-- Which colormap `Heatmap` ends up drawing with. -/
inductive HeatmapCmap where
  /-- The original named colormap, `cmaps.get(cmap)`, unmodified. -/
  | original : HeatmapCmap
  /-- `CenteredColorMap(cmaps.get(cmap), vmin=vmin, vmax=vmax, vcenter=vcenter)`
  with the recorded resolved arguments. -/
  | centered (vmin vcenter vmax : ℚ) : HeatmapCmap
  deriving DecidableEq

/-- The colormap-selection logic of `Heatmap` (`CRF_heatmap.py`, lines
154-170): when `vcenter is not None` the bounds are resolved and, if they
coincide, the original colormap is kept and the requested centering is
disregarded; otherwise `CenteredColorMap` is invoked on the resolved bounds. -/
def heatmapCmapChoice (vcenter vmin vmax : Option ℚ) (data : List ℚ) : HeatmapCmap :=
  match vcenter with
  | none => .original
  | some vc =>
    let vmax' := resolveVmax vmax data
    let vmin' := resolveVmin vmin data
    if vmin' = vmax' then .original
    else .centered vmin' vc vmax'

/-! ### The relative-contour guard of `Heatmap` (lines 213-217 and 280-284) -/

/-- The message of the `ValueError` raised by the relative-contour guard. -/
def relativeContourMsg : String :=
  "The colormap must be centered to plot relative contours."

/-- The contour-level computation of `Heatmap` when `contour_levels` is given:
with `relative_contours` set, the guard `if not vcenter:` raises whenever
`vcenter` is falsy (either `None` or `0`) before any level is computed;
otherwise the levels `vcenter + vcenter*level/100` are produced. Both
occurrences of the block (lines 213-217 and 280-284) are identical. -/
def contourLevelsResolved (contour_levels : List ℚ) (relative_contours : Bool)
    (vcenter : Option ℚ) : Except String (List ℚ) :=
  if relative_contours then
    match vcenter with
    | none => .error relativeContourMsg
    | some vc =>
      if vc = 0 then .error relativeContourMsg
      else .ok (contour_levels.map (fun level => vc + vc * level / 100))
  else .ok contour_levels

/-! ### The input checks of `TwoVarLineplot` (`CRF_lineplot.py`, lines 65-78) -/

/-- Python's `max` on a list: raises (here `none`) exactly on the empty list. -/
def pyMax (l : List ℕ) : Option ℕ :=
  match l with
  | [] => none
  | x :: xs => some (xs.foldl max x)

/-- The three guarded input checks at the top of `TwoVarLineplot`. Each
`try` block evaluates a comparison expression and discards its boolean value;
the custom `ValueError` of the matching `except` is raised only when the
evaluation itself raises. `len(x_axis) == array.shape[0]` and
`len(colors) == len(z_dim)` always evaluate (modelled by a `some` result whose
boolean content is dropped); `max(z_dim) < array.shape[1]` fails to evaluate
exactly when `z_dim` is empty. -/
def TwoVarLineplotChecks (shape0 shape1 xlen colorsLen : ℕ) (z_dim : List ℕ) :
    Except String Unit :=
  match (some (xlen == shape0) : Option Bool) with
  | none => .error "The x_axis must have the same length as the array"
  | some _ =>
    match (some (colorsLen == z_dim.length) : Option Bool) with
    | none => .error "The number of colors must be equal to the number of z_dim"
    | some _ =>
      match (pyMax z_dim).map (fun m => decide (m < shape1)) with
      | none =>
        .error "The maximum value of z_dim must be less than the number of dimensions of the array"
      | some _ => .ok ()

/-! ### Test gradients and the unit-bounds predicate -/

/-- A test gradient, linear in its red channel. -/
def linGrad : ℚ → RGBA := fun t => ⟨t, 0, 0, 1⟩

/-- A test gradient with a quadratic red channel; its channels stay within
`[0, 1]` on the unit interval. -/
def sqGrad : ℚ → RGBA := fun t => ⟨t * t, 0, 0, 1⟩

/-- A constant test gradient. -/
def constGrad : ℚ → RGBA := fun _ => ⟨1/2, 1/2, 1/2, 1⟩

/-- All four channels of a color lie within `[0, 1]`. -/
def UnitRGBA (col : RGBA) : Prop :=
  0 ≤ col.red ∧ col.red ≤ 1 ∧ 0 ≤ col.green ∧ col.green ≤ 1 ∧
  0 ≤ col.blue ∧ col.blue ≤ 1 ∧ 0 ≤ col.alpha ∧ col.alpha ≤ 1

/-! ### Basic facts about the index tables -/

theorem reg_index_length (start stop : ℚ) : (reg_index start stop).length = 513 := by
  simp [reg_index, linspace]

theorem shift_index_length (m : ℚ) : (shift_index m).length = 513 := by
  simp [shift_index, linspace, linspaceNoEndpoint]

theorem channelPoints_length (c : ℚ → ℚ) (start stop m : ℚ) :
    (channelPoints c start stop m).length = 513 := by
  simp [channelPoints, reg_index, shift_index, linspace, linspaceNoEndpoint]

theorem reg_index_getElem (start stop : ℚ) (i : ℕ) (h : i < (reg_index start stop).length) :
    (reg_index start stop)[i] = start + (i : ℚ) * (stop - start) / 512 := by
  simp only [reg_index, linspace, List.getElem_map, List.getElem_range]
  norm_num

theorem shift_index_getElem (m : ℚ) (i : ℕ) (h : i < (shift_index m).length) :
    (shift_index m)[i] = shiftPos m i := by
  have hlen1 : (linspaceNoEndpoint 0 m 256).length = 256 := by simp [linspaceNoEndpoint]
  by_cases hi : i < 256
  · unfold shift_index
    rw [List.getElem_append_left (by rw [hlen1]; exact hi)]
    simp only [linspaceNoEndpoint, List.getElem_map, List.getElem_range]
    rw [shiftPos, if_pos hi]
    norm_num
  · have hi' : 256 ≤ i := Nat.le_of_not_lt hi
    unfold shift_index
    rw [List.getElem_append_right (by rw [hlen1]; exact hi')]
    simp only [linspace, List.getElem_map, List.getElem_range, hlen1]
    rw [shiftPos, if_neg hi]
    rw [Nat.cast_sub hi']
    norm_num

theorem channelPoints_getElem (c : ℚ → ℚ) (start stop m : ℚ) (i : ℕ)
    (h : i < (channelPoints c start stop m).length) :
    (channelPoints c start stop m)[i]
      = (shiftPos m i, c (start + (i : ℚ) * (stop - start) / 512)) := by
  have hr : i < (reg_index start stop).length := by
    rw [reg_index_length]; rw [channelPoints_length] at h; exact h
  have hs : i < (shift_index m).length := by
    rw [shift_index_length]; rw [channelPoints_length] at h; exact h
  simp only [channelPoints, List.getElem_map, List.getElem_zip]
  rw [reg_index_getElem start stop i hr, shift_index_getElem m i hs]

theorem shiftPos_zero (m : ℚ) : shiftPos m 0 = 0 := by
  simp [shiftPos]

theorem shiftPos_256 (m : ℚ) : shiftPos m 256 = m := by
  norm_num [shiftPos]

theorem shiftPos_512 (m : ℚ) : shiftPos m 512 = 1 := by
  rw [shiftPos, if_neg (by norm_num)]
  push_cast
  ring

theorem shiftPos_half (i : ℕ) : shiftPos (1/2 : ℚ) i = (i : ℚ) / 512 := by
  rw [shiftPos]
  by_cases hi : i < 256
  · rw [if_pos hi]; ring
  · rw [if_neg hi]; ring

theorem shiftPos_mono {m : ℚ} (h0 : 0 ≤ m) (h1 : m ≤ 1) {i j : ℕ}
    (hij : i ≤ j) : shiftPos m i ≤ shiftPos m j := by
  have hci : (i : ℚ) ≤ (j : ℚ) := by exact_mod_cast hij
  have hi0 : (0 : ℚ) ≤ (i : ℚ) := by positivity
  rw [shiftPos, shiftPos]
  by_cases hi2 : i < 256 <;> by_cases hj2 : j < 256
  · rw [if_pos hi2, if_pos hj2]
    have : (i : ℚ) * m ≤ (j : ℚ) * m := mul_le_mul_of_nonneg_right hci h0
    linarith
  · rw [if_pos hi2, if_neg hj2]
    have hi255 : (i : ℚ) ≤ 255 := by exact_mod_cast Nat.le_of_lt_succ hi2
    have hj256 : (256 : ℚ) ≤ (j : ℚ) := by exact_mod_cast Nat.le_of_not_lt hj2
    have e1 : (i : ℚ) * m ≤ 255 * m := mul_le_mul_of_nonneg_right hi255 h0
    have e2 : 0 ≤ ((j : ℚ) - 256) * (1 - m) := mul_nonneg (by linarith) (by linarith)
    linarith
  · exfalso; omega
  · rw [if_neg hi2, if_neg hj2]
    have : ((i : ℚ) - 256) * (1 - m) ≤ ((j : ℚ) - 256) * (1 - m) :=
      mul_le_mul_of_nonneg_right (by linarith) (by linarith)
    linarith

theorem shiftPos_strictMono {m : ℚ} (h0 : 0 < m) (h1 : m < 1) {i j : ℕ}
    (hij : i < j) : shiftPos m i < shiftPos m j := by
  have hci : (i : ℚ) < (j : ℚ) := by exact_mod_cast hij
  rw [shiftPos, shiftPos]
  by_cases hi2 : i < 256 <;> by_cases hj2 : j < 256
  · rw [if_pos hi2, if_pos hj2]
    have : (i : ℚ) * m < (j : ℚ) * m := mul_lt_mul_of_pos_right hci h0
    linarith
  · rw [if_pos hi2, if_neg hj2]
    have hi255 : (i : ℚ) ≤ 255 := by exact_mod_cast Nat.le_of_lt_succ hi2
    have hj256 : (256 : ℚ) ≤ (j : ℚ) := by exact_mod_cast Nat.le_of_not_lt hj2
    have e1 : (i : ℚ) * m ≤ 255 * m := mul_le_mul_of_nonneg_right hi255 h0.le
    have e2 : 0 ≤ ((j : ℚ) - 256) * (1 - m) := mul_nonneg (by linarith) (by linarith)
    linarith
  · exfalso; omega
  · rw [if_neg hi2, if_neg hj2]
    have : ((i : ℚ) - 256) * (1 - m) < ((j : ℚ) - 256) * (1 - m) :=
      mul_lt_mul_of_pos_right (by linarith) (by linarith)
    linarith

/-! ### The piecewise-linear lookup is exact at control points -/

theorem interpGo_head (a : ℚ × ℚ) (t : List (ℚ × ℚ)) (q : ℚ) (h : q ≤ a.1) :
    interpGo (a :: t) q = a.2 := by
  cases t with
  | nil => simp [interpGo]
  | cons b t' => simp [interpGo, if_pos h]

theorem interpGo_eq_of_mem (l1 : List (ℚ × ℚ)) (p : ℚ × ℚ) (l2 : List (ℚ × ℚ))
    (h1 : ∀ r ∈ l1, r.1 < p.1) :
    interpGo (l1 ++ p :: l2) p.1 = p.2 := by
  induction l1 with
  | nil =>
    rw [List.nil_append]
    exact interpGo_head p l2 p.1 le_rfl
  | cons a l1' ih =>
    have ha : a.1 < p.1 := h1 a (List.mem_cons_self a l1')
    cases l1' with
    | nil =>
      have hne : p.1 - a.1 ≠ 0 := sub_ne_zero.2 (ne_of_lt ha).symm
      show interpGo (a :: p :: l2) p.1 = p.2
      rw [interpGo, if_neg (not_le.2 ha), if_pos le_rfl, lerp]
      field_simp
    | cons a2 l1'' =>
      have ha2 : a2.1 < p.1 := h1 a2 (by simp)
      have step : interpGo ((a :: a2 :: l1'') ++ p :: l2) p.1
          = interpGo ((a2 :: l1'') ++ p :: l2) p.1 := by
        rw [List.cons_append, List.cons_append, interpGo,
          if_neg (not_le.2 ha), if_neg (not_le.2 ha2)]
      rw [step]
      exact ih (fun r hr => h1 r (List.mem_cons_of_mem a hr))

theorem interp_getElem (l : List (ℚ × ℚ))
    (hmono : ∀ i j, ∀ hi : i < l.length, ∀ hj : j < l.length, i < j → l[i].1 < l[j].1)
    (i : ℕ) (hi : i < l.length) : interp l (l[i].1) = l[i].2 := by
  have hpos : 0 < l.length := Nat.lt_of_le_of_lt (Nat.zero_le i) hi
  by_cases hlastc : i = l.length - 1
  · have hlast : l.getLast? = some l[i] := by
      rw [List.getLast?_eq_getElem?, ← hlastc, List.getElem?_eq_getElem hi]
    rw [interp, hlast]
    simp
  · have hilt : i < l.length - 1 := by omega
    have hl1 : l.length - 1 < l.length := by omega
    have hlast : l.getLast? = some l[l.length - 1] := by
      rw [List.getLast?_eq_getElem?, List.getElem?_eq_getElem hl1]
    have hlt : l[i].1 < l[l.length - 1].1 := hmono i (l.length - 1) hi hl1 hilt
    have h1 : ∀ r ∈ l.take i, r.1 < l[i].1 := by
      intro r hr
      obtain ⟨j, hj, hrj⟩ := List.getElem_of_mem hr
      have hjlen : j < i := by
        rw [List.length_take] at hj; omega
      rw [List.getElem_take] at hrj
      rw [← hrj]
      exact hmono j i (by omega) hi hjlen
    have hsplit : l = l.take i ++ l[i] :: l.drop (i + 1) := by
      conv_lhs => rw [← List.take_append_drop i l, List.drop_eq_getElem_cons hi]
    have key := interpGo_eq_of_mem (l.take i) l[i] (l.drop (i + 1)) h1
    rw [← hsplit] at key
    rw [interp, hlast]
    simp only [if_neg (not_le.2 hlt)]
    exact key

/-! ### Bounds preservation by the piecewise-linear lookup -/

theorem lerp_bounds (x0 y0 x1 y1 q : ℚ) (hx0 : x0 < q) (hx1 : q ≤ x1)
    (hy0 : 0 ≤ y0 ∧ y0 ≤ 1) (hy1 : 0 ≤ y1 ∧ y1 ≤ 1) :
    0 ≤ lerp x0 y0 x1 y1 q ∧ lerp x0 y0 x1 y1 q ≤ 1 := by
  have hx : 0 < x1 - x0 := by linarith
  have ht0 : 0 < (q - x0) / (x1 - x0) := div_pos (by linarith) hx
  have ht1 : (q - x0) / (x1 - x0) ≤ 1 := (div_le_one hx).2 (by linarith)
  have hl : lerp x0 y0 x1 y1 q
      = (1 - (q - x0) / (x1 - x0)) * y0 + ((q - x0) / (x1 - x0)) * y1 := by
    rw [lerp]
    field_simp
    ring
  rw [hl]
  constructor
  · have a1 : 0 ≤ (1 - (q - x0) / (x1 - x0)) * y0 :=
      mul_nonneg (by linarith) hy0.1
    have a2 : 0 ≤ ((q - x0) / (x1 - x0)) * y1 := mul_nonneg ht0.le hy1.1
    linarith
  · have a1 : (1 - (q - x0) / (x1 - x0)) * y0 ≤ (1 - (q - x0) / (x1 - x0)) * 1 :=
      mul_le_mul_of_nonneg_left hy0.2 (by linarith)
    have a2 : ((q - x0) / (x1 - x0)) * y1 ≤ ((q - x0) / (x1 - x0)) * 1 :=
      mul_le_mul_of_nonneg_left hy1.2 ht0.le
    linarith

theorem interpGo_bounds (l : List (ℚ × ℚ)) (q : ℚ)
    (h : ∀ p ∈ l, 0 ≤ p.2 ∧ p.2 ≤ 1) :
    0 ≤ interpGo l q ∧ interpGo l q ≤ 1 := by
  induction l with
  | nil => rw [interpGo]; norm_num
  | cons a t ih =>
    cases t with
    | nil =>
      rw [interpGo]
      exact h a (by simp)
    | cons b t' =>
      rw [interpGo]
      by_cases hqa : q ≤ a.1
      · rw [if_pos hqa]
        exact h a (by simp)
      · rw [if_neg hqa]
        by_cases hqb : q ≤ b.1
        · rw [if_pos hqb]
          exact lerp_bounds a.1 a.2 b.1 b.2 q (not_le.1 hqa) hqb
            (h a (by simp)) (h b (by simp))
        · rw [if_neg hqb]
          exact ih (fun p hp => h p (List.mem_cons_of_mem a hp))

theorem interp_bounds (l : List (ℚ × ℚ)) (q : ℚ)
    (h : ∀ p ∈ l, 0 ≤ p.2 ∧ p.2 ≤ 1) :
    0 ≤ interp l q ∧ interp l q ≤ 1 := by
  cases hl : l.getLast? with
  | none => simp [interp, hl]
  | some p =>
    by_cases hq : p.1 ≤ q
    · simp only [interp, hl, if_pos hq]
      exact h p (List.mem_of_getLast?_eq_some hl)
    · simp only [interp, hl, if_neg hq]
      exact interpGo_bounds l q h

/-! ### Evaluation of the recentered channels -/

theorem channelPoints_getLast (c : ℚ → ℚ) (start stop m : ℚ) :
    (channelPoints c start stop m).getLast? = some (1, c stop) := by
  have hlen : (channelPoints c start stop m).length = 513 :=
    channelPoints_length c start stop m
  have h512 : 512 < (channelPoints c start stop m).length := by rw [hlen]; norm_num
  rw [List.getLast?_eq_getElem?,
    show (channelPoints c start stop m).length - 1 = 512 from by rw [hlen],
    List.getElem?_eq_getElem h512, channelPoints_getElem c start stop m 512 h512,
    shiftPos_512]
  have hv : start + ((512 : ℕ) : ℚ) * (stop - start) / 512 = stop := by
    push_cast
    ring
  rw [hv]

theorem channelPoints_strict (c : ℚ → ℚ) (start stop m : ℚ) (h0 : 0 < m) (h1 : m < 1) :
    ∀ i j, ∀ hi : i < (channelPoints c start stop m).length,
      ∀ hj : j < (channelPoints c start stop m).length, i < j →
        (channelPoints c start stop m)[i].1 < (channelPoints c start stop m)[j].1 := by
  intro i j hi hj hij
  rw [channelPoints_getElem c start stop m i hi, channelPoints_getElem c start stop m j hj]
  exact shiftPos_strictMono h0 h1 hij

theorem interp_channelPoints_zero (c : ℚ → ℚ) (m : ℚ) :
    interp (channelPoints c 0 1 m) 0 = c 0 := by
  have hlast := channelPoints_getLast c 0 1 m
  have hlen : (channelPoints c 0 1 m).length = 513 := channelPoints_length c 0 1 m
  have h0 : 0 < (channelPoints c 0 1 m).length := by rw [hlen]; norm_num
  simp only [interp, hlast, if_neg (by norm_num : ¬ (1 : ℚ) ≤ 0)]
  have hsplit : channelPoints c 0 1 m
      = (channelPoints c 0 1 m)[0] :: (channelPoints c 0 1 m).drop 1 := by
    conv_lhs => rw [← List.drop_zero (channelPoints c 0 1 m),
      List.drop_eq_getElem_cons h0]
  rw [hsplit, interpGo_head _ _ _ (by
    rw [channelPoints_getElem c 0 1 m 0 h0, shiftPos_zero]),
    channelPoints_getElem c 0 1 m 0 h0]
  norm_num

theorem interp_channelPoints_one (c : ℚ → ℚ) (m : ℚ) :
    interp (channelPoints c 0 1 m) 1 = c 1 := by
  have hlast := channelPoints_getLast c 0 1 m
  simp only [interp, hlast, if_pos (le_refl (1 : ℚ))]

theorem interp_channelPoints_mid (c : ℚ → ℚ) (m : ℚ) (h0 : 0 < m) (h1 : m < 1) :
    interp (channelPoints c 0 1 m) m = c (1/2) := by
  have hlen : (channelPoints c 0 1 m).length = 513 := channelPoints_length c 0 1 m
  have h256 : 256 < (channelPoints c 0 1 m).length := by rw [hlen]; norm_num
  have hg := channelPoints_getElem c 0 1 m 256 h256
  have key := interp_getElem (channelPoints c 0 1 m)
    (channelPoints_strict c 0 1 m h0 h1) 256 h256
  rw [hg] at key
  simp only [shiftPos_256] at key
  rw [key]
  norm_num

theorem interp_channelPoints_half (c : ℚ → ℚ) (i : ℕ) (hi : i ≤ 512) :
    interp (channelPoints c 0 1 (1/2)) ((i : ℚ) / 512) = c ((i : ℚ) / 512) := by
  have hlen : (channelPoints c 0 1 (1/2)).length = 513 := channelPoints_length c 0 1 (1/2)
  have hi' : i < (channelPoints c 0 1 (1/2)).length := by rw [hlen]; omega
  have hg := channelPoints_getElem c 0 1 (1/2) i hi'
  have key := interp_getElem (channelPoints c 0 1 (1/2))
    (channelPoints_strict c 0 1 (1/2) (by norm_num) (by norm_num)) i hi'
  rw [hg] at key
  simp only [shiftPos_half] at key
  have hv : 0 + (i : ℚ) * (1 - 0) / 512 = (i : ℚ) / 512 := by ring
  rw [hv] at key
  exact key

theorem interp_channelPoints_first_seg (c : ℚ → ℚ) (m q : ℚ)
    (hq0 : 0 < q) (hq1 : q ≤ shiftPos m 1) (hq2 : ¬ (1 : ℚ) ≤ q) :
    interp (channelPoints c 0 1 m) q = lerp 0 (c 0) (shiftPos m 1) (c (1/512)) q := by
  have hlast := channelPoints_getLast c 0 1 m
  have hlen : (channelPoints c 0 1 m).length = 513 := channelPoints_length c 0 1 m
  have h0 : 0 < (channelPoints c 0 1 m).length := by rw [hlen]; norm_num
  have h1 : 1 < (channelPoints c 0 1 m).length := by rw [hlen]; norm_num
  simp only [interp, hlast, if_neg hq2]
  have hsplit : channelPoints c 0 1 m
      = (channelPoints c 0 1 m)[0] :: (channelPoints c 0 1 m)[1]
        :: (channelPoints c 0 1 m).drop 2 := by
    conv_lhs => rw [← List.drop_zero (channelPoints c 0 1 m),
      List.drop_eq_getElem_cons h0, List.drop_eq_getElem_cons h1]
  rw [hsplit, interpGo,
    if_neg (by
      rw [channelPoints_getElem c 0 1 m 0 h0, shiftPos_zero]
      exact not_le.2 hq0),
    if_pos (by
      rw [channelPoints_getElem c 0 1 m 1 h1]
      exact hq1),
    channelPoints_getElem c 0 1 m 0 h0, channelPoints_getElem c 0 1 m 1 h1,
    shiftPos_zero]
  norm_num

/-! ### Assembly of the four channels -/

theorem CenteredColorMap_apply_zero (cmap : ℚ → RGBA) (vmin vcenter vmax : ℚ) :
    CenteredColorMap cmap vmin vcenter vmax 0 1 0 = cmap 0 := by
  apply RGBA.ext <;>
    simp only [CenteredColorMap, CenteredColorMapCore, interp_channelPoints_zero]

theorem CenteredColorMap_apply_one (cmap : ℚ → RGBA) (vmin vcenter vmax : ℚ) :
    CenteredColorMap cmap vmin vcenter vmax 0 1 1 = cmap 1 := by
  apply RGBA.ext <;>
    simp only [CenteredColorMap, CenteredColorMapCore, interp_channelPoints_one]

theorem CenteredColorMapCore_mid (cmap : ℚ → RGBA) (m : ℚ) (h0 : 0 < m) (h1 : m < 1) :
    CenteredColorMapCore cmap m 0 1 m = cmap (1/2) := by
  apply RGBA.ext <;>
    simp only [CenteredColorMapCore, interp_channelPoints_mid _ m h0 h1]

theorem CenteredColorMapCore_half (cmap : ℚ → RGBA) (i : ℕ) (hi : i ≤ 512) :
    CenteredColorMapCore cmap (1/2) 0 1 ((i : ℚ) / 512) = cmap ((i : ℚ) / 512) := by
  apply RGBA.ext <;>
    simp only [CenteredColorMapCore, interp_channelPoints_half _ i hi]

/-! ### The control tables on numpy scalars -/

theorem shift_indexNp_length (m : Option ℚ) : (shift_indexNp m).length = 513 := by
  simp [shift_indexNp]

theorem channelPointsNp_length (c : ℚ → ℚ) (start stop : ℚ) (m : Option ℚ) :
    (channelPointsNp c start stop m).length = 513 := by
  simp [channelPointsNp, reg_index, linspace, shift_indexNp]

theorem shift_indexNp_some_getElem (mv : ℚ) (j : ℕ)
    (h : j < (shift_indexNp (some mv)).length) :
    (shift_indexNp (some mv))[j] = some (shiftPos mv j) := by
  unfold shift_indexNp
  by_cases hj1 : j < 256
  · rw [List.getElem_append_left (by simpa using hj1)]
    simp only [List.getElem_map, List.getElem_range, Option.map_some']
    rw [shiftPos, if_pos hj1]
    norm_num
  · have hj1' : 256 ≤ j := Nat.le_of_not_lt hj1
    rw [List.getElem_append_right (by simpa using hj1')]
    simp only [List.length_map, List.length_range]
    by_cases hj2 : j - 256 < 256
    · rw [List.getElem_append_left (by simpa using hj2)]
      simp only [List.getElem_map, List.getElem_range, Option.map_some']
      rw [shiftPos, if_neg hj1, Nat.cast_sub hj1']
      norm_num
    · rw [List.getElem_append_right (by simpa using Nat.le_of_not_lt hj2)]
      have hj512 : j = 512 := by
        have h513 : j < 513 := by
          rw [shift_indexNp_length] at h
          exact h
        omega
      subst hj512
      simp [shiftPos_512]

theorem shift_indexNp_some (mv : ℚ) :
    shift_indexNp (some mv) = (shift_index mv).map some := by
  apply List.ext_getElem
  · rw [shift_indexNp_length, List.length_map, shift_index_length]
  · intro j hj hj'
    have hjs : j < (shift_index mv).length := by
      rw [List.length_map] at hj'
      exact hj'
    rw [List.getElem_map, shift_index_getElem mv j hjs, shift_indexNp_some_getElem mv j hj]

theorem shift_indexNp_none_getElem (j : ℕ) (hj : j < 512)
    (h : j < (shift_indexNp (none : Option ℚ)).length) :
    (shift_indexNp (none : Option ℚ))[j] = none := by
  unfold shift_indexNp
  by_cases hj1 : j < 256
  · rw [List.getElem_append_left (by
      simp only [List.length_map, List.length_range]
      exact hj1)]
    simp only [List.getElem_map, List.getElem_range, Option.map_none']
  · have hj1' : 256 ≤ j := Nat.le_of_not_lt hj1
    rw [List.getElem_append_right (by
      simp only [List.length_map, List.length_range]
      exact hj1')]
    simp only [List.length_map, List.length_range]
    rw [List.getElem_append_left (by
      simp only [List.length_map, List.length_range]
      omega)]
    simp only [List.getElem_map, List.getElem_range, Option.map_none']

theorem channelPointsNp_getElem_fst (c : ℚ → ℚ) (start stop : ℚ) (m : Option ℚ)
    (j : ℕ) (h : j < (channelPointsNp c start stop m).length)
    (hs : j < (shift_indexNp m).length) :
    (channelPointsNp c start stop m)[j].1 = (shift_indexNp m)[j] := by
  simp only [channelPointsNp, List.getElem_map, List.getElem_zip]

theorem channelPointsNp_some (c : ℚ → ℚ) (start stop mv : ℚ) :
    channelPointsNp c start stop (some mv)
      = (channelPoints c start stop mv).map (fun p => (some p.1, p.2)) := by
  rw [channelPointsNp, shift_indexNp_some, channelPoints, List.zip_map_right,
    List.map_map, List.map_map]
  rfl

theorem channelPointsNp_none_take (c : ℚ → ℚ) (start stop : ℚ) :
    ∀ p ∈ (channelPointsNp c start stop none).take 512, p.1 = none := by
  intro p hp
  obtain ⟨j, hj, hrj⟩ := List.getElem_of_mem hp
  have hj512 : j < 512 := by
    rw [List.length_take, channelPointsNp_length] at hj
    omega
  have hjlen : j < (channelPointsNp c start stop none).length := by
    rw [channelPointsNp_length]; omega
  have hjs : j < (shift_indexNp (none : Option ℚ)).length := by
    rw [shift_indexNp_length]; omega
  rw [List.getElem_take] at hrj
  rw [← hrj, channelPointsNp_getElem_fst c start stop none j hjlen hjs,
    shift_indexNp_none_getElem j hj512 hjs]

/-! ### Claims -/

/-- Claim C1 (counterexample): the claim quantifies over all `vmin`, `vcenter`,
`vmax` with `vmax` different from `vmin`, but with `vmin = vcenter = 0` and
`vmax = 1` the midpoint is `0` and the recentered gradient evaluated there
returns the input gradient at `0`, not at `1/2`. -/
theorem claim_C1_counterexample :
    CenteredColorMap linGrad 0 0 1 0 1 (midpointOf 0 0 1) ≠ linGrad (1/2) := by
  have hm : midpointOf 0 0 1 = 0 := by norm_num [midpointOf]
  rw [hm, CenteredColorMap_apply_zero]
  intro hEq
  have hred := congrArg RGBA.red hEq
  norm_num [linGrad] at hred

/-- Claim C1 (amended): for every input gradient and all reals with
`vmin < vcenter < vmax` (so the midpoint lies strictly inside the unit
interval), with default `start = 0` and `stop = 1`, the gradient returned by
`CenteredColorMap` evaluated at `midpoint = (vcenter - vmin)/(vmax - vmin)`
equals the input gradient at `1/2` exactly. -/
theorem claim_C1_amended (cmap : ℚ → RGBA) (vmin vcenter vmax : ℚ)
    (h1 : vmin < vcenter) (h2 : vcenter < vmax) :
    CenteredColorMap cmap vmin vcenter vmax 0 1 (midpointOf vmin vcenter vmax)
      = cmap (1/2) := by
  have hden : 0 < vmax - vmin := by linarith
  have h0 : 0 < midpointOf vmin vcenter vmax := div_pos (by linarith) hden
  have hlt1 : midpointOf vmin vcenter vmax < 1 := (div_lt_one hden).2 (by linarith)
  rw [CenteredColorMap]
  exact CenteredColorMapCore_mid cmap _ h0 hlt1

/-- Witness for the amended claim C1, at the spec's concrete example
`vmin = -10`, `vcenter = 0`, `vmax = 30` (midpoint `1/4`). -/
theorem claim_C1_witness :
    CenteredColorMap linGrad (-10) 0 30 0 1 (midpointOf (-10) 0 30) = linGrad (1/2) :=
  claim_C1_amended linGrad (-10) 0 30 (by norm_num) (by norm_num)

/-- Claim C2: for every input gradient and all reals with
`vmin ≤ vcenter ≤ vmax` and `vmax` different from `vmin`, with default
`start = 0` and `stop = 1`, the recentered gradient evaluated at `0` equals the
input gradient at `start = 0` and evaluated at `1` equals the input gradient at
`stop = 1`. -/
theorem claim_C2 (cmap : ℚ → RGBA) (vmin vcenter vmax : ℚ)
    (h1 : vmin ≤ vcenter) (h2 : vcenter ≤ vmax) (hne : vmax ≠ vmin) :
    CenteredColorMap cmap vmin vcenter vmax 0 1 0 = cmap 0 ∧
    CenteredColorMap cmap vmin vcenter vmax 0 1 1 = cmap 1 :=
  ⟨CenteredColorMap_apply_zero cmap vmin vcenter vmax,
   CenteredColorMap_apply_one cmap vmin vcenter vmax⟩

/-- Witness for claim C2 at `vmin = -10`, `vcenter = 0`, `vmax = 30`. -/
theorem claim_C2_witness :
    CenteredColorMap sqGrad (-10) 0 30 0 1 0 = sqGrad 0 ∧
    CenteredColorMap sqGrad (-10) 0 30 0 1 1 = sqGrad 1 :=
  claim_C2 sqGrad (-10) 0 30 (by norm_num) (by norm_num) (by norm_num)

/-- Claim C3: for every `vmin ≤ vcenter ≤ vmax` with `vmin` different from
`vmax`, the 513 target positions built by `CenteredColorMap` (256 evenly
spaced values over `[0, midpoint)` followed by 257 evenly spaced values over
`[midpoint, 1]`) form a non-decreasing sequence whose first element is `0` and
whose last element is `1`. -/
theorem claim_C3 (vmin vcenter vmax : ℚ) (h1 : vmin ≤ vcenter) (h2 : vcenter ≤ vmax)
    (hne : vmin ≠ vmax) :
    (shift_index (midpointOf vmin vcenter vmax)).length = 513 ∧
    List.Sorted (· ≤ ·) (shift_index (midpointOf vmin vcenter vmax)) ∧
    (shift_index (midpointOf vmin vcenter vmax)).head? = some 0 ∧
    (shift_index (midpointOf vmin vcenter vmax)).getLast? = some 1 := by
  have hlt : vmin < vmax := lt_of_le_of_ne (le_trans h1 h2) hne
  have hden : 0 < vmax - vmin := by linarith
  have hm0 : 0 ≤ midpointOf vmin vcenter vmax := div_nonneg (by linarith) hden.le
  have hm1 : midpointOf vmin vcenter vmax ≤ 1 := (div_le_one hden).2 (by linarith)
  refine ⟨shift_index_length _, ?_, ?_, ?_⟩
  · show List.Pairwise (· ≤ ·) (shift_index (midpointOf vmin vcenter vmax))
    rw [List.pairwise_iff_getElem]
    intro i j hi hj hij
    rw [shift_index_getElem _ i hi, shift_index_getElem _ j hj]
    exact shiftPos_mono hm0 hm1 hij.le
  · have h0 : 0 < (shift_index (midpointOf vmin vcenter vmax)).length := by
      rw [shift_index_length]; norm_num
    rw [List.head?_eq_getElem?, List.getElem?_eq_getElem h0,
      shift_index_getElem _ 0 h0, shiftPos_zero]
  · have h512 : 512 < (shift_index (midpointOf vmin vcenter vmax)).length := by
      rw [shift_index_length]; norm_num
    rw [List.getLast?_eq_getElem?,
      show (shift_index (midpointOf vmin vcenter vmax)).length - 1 = 512 from by
        rw [shift_index_length],
      List.getElem?_eq_getElem h512, shift_index_getElem _ 512 h512, shiftPos_512]

/-- Witness for claim C3 at `vmin = -10`, `vcenter = 0`, `vmax = 30`. -/
theorem claim_C3_witness :
    (shift_index (midpointOf (-10) 0 30)).length = 513 ∧
    List.Sorted (· ≤ ·) (shift_index (midpointOf (-10) 0 30)) ∧
    (shift_index (midpointOf (-10) 0 30)).head? = some 0 ∧
    (shift_index (midpointOf (-10) 0 30)).getLast? = some 1 :=
  claim_C3 (-10) 0 30 (by norm_num) (by norm_num) (by norm_num)

/-- Claim C4 (counterexample): with `vmin = 0`, `vmax = 1` and
`vcenter = (vmin + vmax)/2 = 1/2`, the output gradient is the piecewise-linear
resampling of the input, so for the quadratic gradient it differs from the
input at the off-grid query `1/1024`: the claimed pointwise identity fails. -/
theorem claim_C4_counterexample :
    CenteredColorMap sqGrad 0 (1/2) 1 0 1 (1/1024) ≠ sqGrad (1/1024) := by
  have hm : midpointOf 0 (1/2) 1 = 1/2 := by norm_num [midpointOf]
  intro hEq
  have hred := congrArg RGBA.red hEq
  rw [CenteredColorMap, hm] at hred
  simp only [CenteredColorMapCore] at hred
  rw [interp_channelPoints_first_seg _ _ _ (by norm_num)
    (by norm_num [shiftPos]) (by norm_num)] at hred
  norm_num [lerp, sqGrad, shiftPos] at hred

/-- Claim C4 (amended): when `vcenter = (vmin + vmax)/2` with `vmin < vmax` and
default `start = 0`, `stop = 1`, the midpoint is `1/2` and the shifted schedule
coincides with the regular one, so the output gradient agrees with the input
gradient at each of the 513 control positions `i/512`; the claimed agreement at
every query position only holds at these sample points (between them the output
is the linear interpolation of the input's samples). -/
theorem claim_C4_amended (cmap : ℚ → RGBA) (vmin vmax : ℚ) (h : vmin < vmax) :
    midpointOf vmin ((vmin + vmax)/2) vmax = 1/2 ∧
    ∀ i : ℕ, i ≤ 512 →
      CenteredColorMap cmap vmin ((vmin + vmax)/2) vmax 0 1 ((i : ℚ) / 512)
        = cmap ((i : ℚ) / 512) := by
  have hden : vmax - vmin ≠ 0 := sub_ne_zero.2 (ne_of_lt h).symm
  have hm : midpointOf vmin ((vmin + vmax)/2) vmax = 1/2 := by
    rw [midpointOf]
    field_simp
    ring
  refine ⟨hm, fun i hi => ?_⟩
  rw [CenteredColorMap, hm]
  exact CenteredColorMapCore_half cmap i hi

/-- Witness for the amended claim C4 at `vmin = 0`, `vmax = 1`, control index
`256` (query position `1/2`). -/
theorem claim_C4_witness :
    midpointOf 0 ((0 + 1)/2) 1 = 1/2 ∧
    CenteredColorMap linGrad 0 ((0 + 1)/2) 1 0 1 (((256 : ℕ) : ℚ) / 512)
      = linGrad (((256 : ℕ) : ℚ) / 512) := by
  obtain ⟨ha, hb⟩ := claim_C4_amended linGrad 0 1 (by norm_num)
  exact ⟨ha, hb 256 (by norm_num)⟩

/-- Claim C5 (counterexample): called with `vmin = vmax = 0` (and
`vcenter = 1`), `CenteredColorMap` does not raise or abort: the division by
zero yields a non-finite numpy scalar with only a `RuntimeWarning`, and the
function returns a complete 513-row red-channel control table whose first
target position is non-finite — silently corrupted output, contradicting the
claim's assertion that any error is an immediate raise/abort and that the
function never returns silently corrupted output. -/
theorem claim_C5_counterexample :
    (CenteredColorMapNp linGrad 0 1 0 0 1).1.length = 513 ∧
    ((CenteredColorMapNp linGrad 0 1 0 0 1).1.map Prod.fst).head? = some none := by
  have hm : midpointNp 0 1 0 = none := by
    rw [midpointNp, npDiv, if_pos (by norm_num)]
  constructor
  · show (channelPointsNp (fun t => (linGrad t).red) 0 1 (midpointNp 0 1 0)).length = 513
    exact channelPointsNp_length _ 0 1 _
  · show ((channelPointsNp (fun t => (linGrad t).red) 0 1
      (midpointNp 0 1 0)).map Prod.fst).head? = some none
    rw [hm]
    have hlen : 0 < (channelPointsNp (fun t => (linGrad t).red) 0 1
        (none : Option ℚ)).length := by
      rw [channelPointsNp_length]; norm_num
    have hs : 0 < (shift_indexNp (none : Option ℚ)).length := by
      rw [shift_indexNp_length]; norm_num
    rw [List.head?_map, List.head?_eq_getElem?, List.getElem?_eq_getElem hlen,
      Option.map_some', channelPointsNp_getElem_fst _ 0 1 none 0 hlen hs,
      shift_indexNp_none_getElem 0 (by norm_num) hs]

/-- Claim C5 (amended): `CenteredColorMap` raises no exception for any input —
including `vmin = vmax`, its only source of undefined arithmetic: there the
midpoint division yields a non-finite numpy scalar (a `RuntimeWarning`, not an
exception), all 512 computed target positions of each channel table are
poisoned to non-finite values while the explicitly assigned final endpoint
stays `1`, and the function still returns the complete table — silently
corrupted output that callers such as `Heatmap` must guard against. For
`vmax` different from `vmin` the returned table is exactly the well-defined
recentered schedule of the ideal model. -/
theorem claim_C5_amended (c : ℚ → ℚ) (vmin vcenter vmax : ℚ) :
    (channelPointsNp c 0 1 (midpointNp vmin vcenter vmax)).length = 513 ∧
    (vmax ≠ vmin →
      channelPointsNp c 0 1 (midpointNp vmin vcenter vmax)
        = (channelPoints c 0 1 (midpointOf vmin vcenter vmax)).map
            (fun p => (some p.1, p.2))) ∧
    (vmax = vmin →
      ∀ p ∈ (channelPointsNp c 0 1 (midpointNp vmin vcenter vmax)).take 512,
        p.1 = none) := by
  refine ⟨channelPointsNp_length c 0 1 _, ?_, ?_⟩
  · intro hne
    rw [midpointNp, npDiv, if_neg (sub_ne_zero.2 hne)]
    exact channelPointsNp_some c 0 1 _
  · intro hEq
    rw [midpointNp, npDiv, if_pos (by rw [hEq]; ring)]
    exact channelPointsNp_none_take c 0 1

/-- Witness for the amended claim C5: with `vmin = 0`, `vcenter = 1`,
`vmax = 2` the well-defined finite table is returned, and with
`vmin = vmax = 0` the first 512 target positions are all non-finite. -/
theorem claim_C5_witness :
    (channelPointsNp (fun t => t) 0 1 (midpointNp 0 1 2)
      = (channelPoints (fun t => t) 0 1 (midpointOf 0 1 2)).map
          (fun p => (some p.1, p.2))) ∧
    (∀ p ∈ (channelPointsNp (fun t => t) 0 1 (midpointNp 0 1 0)).take 512,
      p.1 = none) :=
  ⟨(claim_C5_amended (fun t => t) 0 1 2).2.1 (by norm_num),
   (claim_C5_amended (fun t => t) 0 1 0).2.2 rfl⟩

set_option maxRecDepth 8192 in
/-- Claim C6: for every input gradient whose four channels lie in `[0, 1]` on
the unit interval, the gradient returned by `CenteredColorMap` (default
`start = 0`, `stop = 1`) has all four channels in `[0, 1]` at every query
position in `[0, 1]`, for arbitrary anchors. -/
theorem claim_C6 (cmap : ℚ → RGBA)
    (hc : ∀ t : ℚ, 0 ≤ t → t ≤ 1 → UnitRGBA (cmap t))
    (vmin vcenter vmax q : ℚ) (hq0 : 0 ≤ q) (hq1 : q ≤ 1) :
    UnitRGBA (CenteredColorMap cmap vmin vcenter vmax 0 1 q) := by
  have hmem : ∀ c : ℚ → ℚ, (∀ t : ℚ, 0 ≤ t → t ≤ 1 → 0 ≤ c t ∧ c t ≤ 1) →
      ∀ p ∈ channelPoints c 0 1 (midpointOf vmin vcenter vmax), 0 ≤ p.2 ∧ p.2 ≤ 1 := by
    intro c hcb p hp
    simp only [channelPoints, List.mem_map] at hp
    obtain ⟨⟨u, v⟩, huv, rfl⟩ := hp
    have hu : u ∈ reg_index 0 1 := (List.of_mem_zip huv).1
    simp only [reg_index, linspace, List.mem_map, List.mem_range] at hu
    obtain ⟨i, hi, rfl⟩ := hu
    have hc512 : (i : ℚ) ≤ 512 := by exact_mod_cast Nat.le_of_lt_succ hi
    have hc0 : (0 : ℚ) ≤ (i : ℚ) := by positivity
    exact hcb _ (by linarith [hc0]) (by linarith [hc512])
  have hr := interp_bounds (channelPoints (fun t => (cmap t).red) 0 1
      (midpointOf vmin vcenter vmax)) q
    (hmem _ (fun t ht0 ht1 => ⟨(hc t ht0 ht1).1, (hc t ht0 ht1).2.1⟩))
  have hg := interp_bounds (channelPoints (fun t => (cmap t).green) 0 1
      (midpointOf vmin vcenter vmax)) q
    (hmem _ (fun t ht0 ht1 => ⟨(hc t ht0 ht1).2.2.1, (hc t ht0 ht1).2.2.2.1⟩))
  have hb := interp_bounds (channelPoints (fun t => (cmap t).blue) 0 1
      (midpointOf vmin vcenter vmax)) q
    (hmem _ (fun t ht0 ht1 => ⟨(hc t ht0 ht1).2.2.2.2.1, (hc t ht0 ht1).2.2.2.2.2.1⟩))
  have ha := interp_bounds (channelPoints (fun t => (cmap t).alpha) 0 1
      (midpointOf vmin vcenter vmax)) q
    (hmem _ (fun t ht0 ht1 =>
      ⟨(hc t ht0 ht1).2.2.2.2.2.2.1, (hc t ht0 ht1).2.2.2.2.2.2.2⟩))
  unfold CenteredColorMap CenteredColorMapCore UnitRGBA
  exact ⟨hr.1, hr.2, hg.1, hg.2, hb.1, hb.2, ha.1, ha.2⟩

/-- Witness for claim C6 with a constant gradient at the spec's concrete
anchors and query `1/4`. -/
theorem claim_C6_witness :
    UnitRGBA (CenteredColorMap constGrad (-10) 0 30 0 1 (1/4)) :=
  claim_C6 constGrad
    (fun t ht0 ht1 => by norm_num [constGrad, UnitRGBA])
    (-10) 0 30 (1/4) (by norm_num) (by norm_num)

/-- Claim C7: whenever `Heatmap` is called with a `vcenter` and the resolved
bounds coincide, the colormap selection bypasses `CenteredColorMap` entirely
and keeps the original named colormap unmodified. -/
theorem claim_C7 (vcenter : ℚ) (vmin vmax : Option ℚ) (data : List ℚ)
    (h : resolveVmin vmin data = resolveVmax vmax data) :
    heatmapCmapChoice (some vcenter) vmin vmax data = HeatmapCmap.original := by
  simp only [heatmapCmapChoice]
  rw [if_pos h]

/-- Witness for claim C7: constant data with both bounds supplied as `1`. -/
theorem claim_C7_witness :
    heatmapCmapChoice (some 0) (some 1) (some 1) [5] = HeatmapCmap.original :=
  claim_C7 0 (some 1) (some 1) [5] (by norm_num [resolveVmin, resolveVmax])

/-- Claim C8 (counterexample): the claim states that an explicitly supplied
`vmax` of `0` is used unchanged, but the guard `if not vmax:` treats `0` as
missing: with data maximum `2`, a supplied `vmax = 0` is replaced by
`ceil(2) = 2`, so the selected colormap is not centered on bounds `(1, 0)`. -/
theorem claim_C8_counterexample :
    heatmapCmapChoice (some (1/2)) (some 1) (some 0) [2]
      ≠ HeatmapCmap.centered 1 (1/2) 0 := by
  have hmax : resolveVmax (some 0) [2] = 2 := by
    rw [resolveVmax, if_pos rfl]
    simp [dataMax]
  have hmin : resolveVmin (some 1) [2] = 1 := by
    rw [resolveVmin, if_neg (by norm_num)]
  simp only [heatmapCmapChoice, hmax, hmin]
  rw [if_neg (by norm_num)]
  simp only [ne_eq, HeatmapCmap.centered.injEq]
  norm_num

/-- Claim C8 (amended): in `Heatmap`'s bound resolution, a supplied nonzero
`vmin`/`vmax` is used unchanged, while a missing value — or a supplied value
equal to `0`, which Python's truthiness test conflates with missing — is
replaced by the data's observed maximum rounded up (for `vmax`) or minimum
rounded down (for `vmin`) to an integer. -/
theorem claim_C8_amended (data : List ℚ) (v : ℚ) (hv : v ≠ 0) :
    resolveVmax (some v) data = v ∧ resolveVmin (some v) data = v ∧
    resolveVmax none data = ((Int.ceil (dataMax data) : ℤ) : ℚ) ∧
    resolveVmin none data = ((Int.floor (dataMin data) : ℤ) : ℚ) ∧
    resolveVmax (some 0) data = ((Int.ceil (dataMax data) : ℤ) : ℚ) ∧
    resolveVmin (some 0) data = ((Int.floor (dataMin data) : ℤ) : ℚ) := by
  refine ⟨?_, ?_, rfl, rfl, ?_, ?_⟩
  · rw [resolveVmax, if_neg hv]
  · rw [resolveVmin, if_neg hv]
  · rw [resolveVmax, if_pos rfl]
  · rw [resolveVmin, if_pos rfl]

/-- Witness for the amended claim C8 with data `[2]` and supplied value `1`. -/
theorem claim_C8_witness :
    resolveVmax (some 1) [2] = 1 ∧ resolveVmin (some 1) [2] = 1 ∧
    resolveVmax none [2] = ((Int.ceil (dataMax [2]) : ℤ) : ℚ) ∧
    resolveVmin none [2] = ((Int.floor (dataMin [2]) : ℤ) : ℚ) ∧
    resolveVmax (some 0) [2] = ((Int.ceil (dataMax [2]) : ℤ) : ℚ) ∧
    resolveVmin (some 0) [2] = ((Int.floor (dataMin [2]) : ℤ) : ℚ) :=
  claim_C8_amended [2] 1 (by norm_num)

/-- Claim C9: with contour levels requested and `relative_contours` set, the
guard `if not vcenter:` raises the `ValueError` whenever `vcenter` is falsy —
not only when it is `None` but also when it equals `0`, the typical centering
value — before any contour level is computed. -/
theorem claim_C9 (contour_levels : List ℚ) :
    contourLevelsResolved contour_levels true none = Except.error relativeContourMsg ∧
    contourLevelsResolved contour_levels true (some 0)
      = Except.error relativeContourMsg := by
  constructor
  · rfl
  · rw [contourLevelsResolved]
    simp

/-- Claim C10: the three input checks of `TwoVarLineplot` never raise on
mismatched sizes — each comparison's boolean result is discarded inside its
`try` block — and a check rejects the input only when evaluating the
comparison itself raises, which happens exactly for `max(z_dim)` on an empty
`z_dim`. -/
theorem claim_C10 (shape0 shape1 xlen colorsLen : ℕ) (z_dim : List ℕ) :
    TwoVarLineplotChecks shape0 shape1 xlen colorsLen z_dim =
      if z_dim.isEmpty then
        Except.error
          "The maximum value of z_dim must be less than the number of dimensions of the array"
      else Except.ok () := by
  cases z_dim with
  | nil => rfl
  | cons a t => rfl

end CST
